import Mathlib

/-!
Verification of the sectool collaboration daemon (llm-security-toolbox).

The development shallowly embeds the parts of the Go sources that the
checked properties speak about: the secure local-socket listener and its
peer-credential verification, the socket-path validation, the OAST poll
wait cap, the replay pipeline's body/Content-Length handling, the
request-line and query rewriting, version normalization, response
status-line parsing, and the replay request store together with the
base64 wire encoding of stored bodies.

Bytes are modelled as `List Nat` (each element intended `< 256`) and raw
request/response text as `List Char`; all definitions are executable and
structural so that concrete instances evaluate by `decide`.
-/

namespace SecTool

/-- Facts about an accepted connection that the operating system exposes to
the daemon; embedding of the `net.Conn` state that `verifyPeerCredentials`
(`socket_security_linux.go`) inspects: whether the connection is a unix
socket, whether the syscall handle and the `SO_PEERCRED` lookup succeed,
and the peer's effective UID. -/
structure PeerConn where
  isUnixConn : Bool
  syscallConnOk : Bool
  credOk : Bool
  peerUID : Nat
deriving DecidableEq

/-- Embedding of `verifyPeerCredentials` (socket_security_linux.go:15-44):
returns `none` exactly when the peer is a unix connection whose credentials
could be read and whose UID equals the server's. -/
def verifyPeerCredentials (serverUID : Nat) (c : PeerConn) : Option String :=
  if !c.isUnixConn then some "not a unix connection"
  else if !c.syscallConnOk then some "failed to get syscall conn"
  else if !c.credOk then some "failed to get peer credentials"
  else if c.peerUID != serverUID then some "peer UID does not match server UID"
  else none

/-- Embedding of `secureListener.Accept` (part_002:23-38) over the queue of
pending connections: connections failing `verifyPeerCredentials` are closed
(collected in the first component, in order) and the loop continues; the
first verified connection is returned together with the untouched remainder
of the queue. `none` in the second component means the queue was exhausted
with every connection rejected. -/
def secureListenerAccept (serverUID : Nat) :
    List PeerConn → List PeerConn × Option (PeerConn × List PeerConn)
  | [] => ([], none)
  | c :: rest =>
    match verifyPeerCredentials serverUID c with
    | some _ =>
      (c :: (secureListenerAccept serverUID rest).1, (secureListenerAccept serverUID rest).2)
    | none => ([], some (c, rest))

/-- Verification success implies the peer's effective UID equals the
server's: the UID comparison is the last gate inside
`verifyPeerCredentials`. -/
theorem verifyPeerCredentials_none_uid {serverUID : Nat} {c : PeerConn}
    (h : verifyPeerCredentials serverUID c = none) : c.peerUID = serverUID := by
  unfold verifyPeerCredentials at h
  split at h
  · exact absurd h (by simp)
  · split at h
    · exact absurd h (by simp)
    · split at h
      · exact absurd h (by simp)
      · split at h
        · exact absurd h (by simp)
        · rename_i h4
          simpa using h4

/-- Result of the non-following stat (`os.Lstat`) on the socket path's
parent directory, as consumed by `ValidateSocketPathSecurity`
(part_002:42-78): symlink flag, directory flag, owner UID
(`getFileOwnerUID`), and the permission bits `info.Mode().Perm()`. -/
structure FileStat where
  isSymlink : Bool
  isDir : Bool
  ownerUID : Nat
  permBits : Nat
deriving DecidableEq

/-- Embedding of `ValidateSocketPathSecurity` (part_002:42-78). `lstatDir`
is `none` when `os.Lstat` on the parent directory fails (it does not
exist / cannot be stat-ed). -/
def ValidateSocketPathSecurity (lstatDir : Option FileStat) (currentUID : Nat) :
    Option String :=
  match lstatDir with
  | none => some "failed to stat socket directory"
  | some info =>
    if info.isSymlink then some "socket directory is a symlink"
    else if !info.isDir then some "socket parent path is not a directory"
    else if info.ownerUID != currentUID then some "socket directory owner mismatch"
    else if info.permBits &&& 0o022 != 0 then some "socket directory has insecure permissions"
    else none

/-- Nanoseconds in `120 * time.Second` (Go `time.Duration` is int64 ns). -/
def oastMaxWaitNs : Int := 120 * 1000000000

/-- Embedding of the wait cap in the local-socket OAST poll handler
(oast_handler.go:59-71): the parsed positive wait is reduced to 120s when
it exceeds it. -/
def handleOastPollWaitService (parsedWait : Int) : Int :=
  if parsedWait > oastMaxWaitNs then oastMaxWaitNs else parsedWait

/-- Embedding of the wait cap in the MCP gateway OAST poll handler
(part_003:629-639), byte for byte the same policy as the service handler. -/
def handleOastPollWaitMCP (parsedWait : Int) : Int :=
  if parsedWait > oastMaxWaitNs then oastMaxWaitNs else parsedWait

/-- C2: the secure listener only ever hands out a connection whose peer UID
equals the daemon's; every connection it skipped failed verification and was
closed before any handler saw it, and the rest of the queue is untouched, so
the listener keeps accepting subsequent connections. -/
theorem secure_listener_accept_only_matching_uid
    (serverUID : Nat) (conns rejected rest : List PeerConn) (c : PeerConn)
    (h : secureListenerAccept serverUID conns = (rejected, some (c, rest))) :
    c.peerUID = serverUID ∧
    verifyPeerCredentials serverUID c = none ∧
    (∀ r ∈ rejected, verifyPeerCredentials serverUID r ≠ none) ∧
    conns = rejected ++ c :: rest := by
  induction conns generalizing rejected with
  | nil => simp [secureListenerAccept] at h
  | cons a as ih =>
    rw [secureListenerAccept] at h
    cases hv : verifyPeerCredentials serverUID a with
    | none =>
      rw [hv] at h
      simp only [Prod.mk.injEq, Option.some.injEq] at h
      obtain ⟨hrej, hc, hrest⟩ := h
      subst hrej
      subst hc
      subst hrest
      exact ⟨verifyPeerCredentials_none_uid hv, hv, by simp, by simp⟩
    | some msg =>
      rw [hv] at h
      simp only [Prod.mk.injEq] at h
      obtain ⟨h1, h2⟩ := h
      obtain ⟨g1, g2, g3, g4⟩ :=
        ih (secureListenerAccept serverUID as).1 (by rw [← h2])
      subst h1
      refine ⟨g1, g2, ?_, by rw [List.cons_append, ← g4]⟩
      intro r hr
      rcases List.mem_cons.mp hr with h' | h'
      · subst h'
        simp [hv]
      · exact g3 r h'

/-- Closed witness for C2: a queue holding one mismatched-UID connection and
then a matching one; the mismatched connection lands in the rejected list
and the matching one is returned. -/
theorem secure_listener_accept_only_matching_uid_witness :
    let bad : PeerConn := ⟨true, true, true, 1001⟩
    let good : PeerConn := ⟨true, true, true, 1000⟩
    good.peerUID = 1000 ∧
    verifyPeerCredentials 1000 good = none ∧
    (∀ r ∈ [bad], verifyPeerCredentials 1000 r ≠ none) ∧
    [bad, good] = [bad] ++ good :: [] :=
  secure_listener_accept_only_matching_uid 1000 [⟨true, true, true, 1001⟩, ⟨true, true, true, 1000⟩]
    [⟨true, true, true, 1001⟩] [] ⟨true, true, true, 1000⟩ (by decide)

/-- C5: socket-path validation succeeds (returns `nil`) exactly when the
parent directory exists, is not a symlink, is a directory, is owned by the
current UID, and carries no group/other write bits. -/
theorem validate_socket_path_security_iff
    (lstatDir : Option FileStat) (currentUID : Nat) :
    ValidateSocketPathSecurity lstatDir currentUID = none ↔
      ∃ info, lstatDir = some info ∧
        info.isSymlink = false ∧
        info.isDir = true ∧
        info.ownerUID = currentUID ∧
        info.permBits &&& 0o022 = 0 := by
  cases lstatDir with
  | none => simp [ValidateSocketPathSecurity]
  | some info =>
    simp only [ValidateSocketPathSecurity, Option.some.injEq]
    constructor
    · intro h
      refine ⟨info, rfl, ?_⟩
      by_cases h1 : info.isSymlink = true
      · simp [h1] at h
      · by_cases h2 : info.isDir = true
        · by_cases h3 : info.ownerUID = currentUID
          · by_cases h4 : info.permBits &&& 0o022 = 0
            · simp_all
            · simp [h1, h2, h3, h4] at h
          · simp [h1, h2, h3] at h
        · simp [h1, h2] at h
    · rintro ⟨info', hinfo, h1, h2, h3, h4⟩
      cases hinfo
      simp [h1, h2, h3, h4]

/-- C8: on both the local-socket handler and the MCP gateway handler, a
positive requested wait becomes exactly `min wait 120s`. -/
theorem oast_poll_wait_capped (w : Int) (_hw : 0 < w) :
    handleOastPollWaitService w = min w oastMaxWaitNs ∧
    handleOastPollWaitMCP w = min w oastMaxWaitNs := by
  have : handleOastPollWaitService w = min w oastMaxWaitNs := by
    unfold handleOastPollWaitService
    rcases le_or_lt w oastMaxWaitNs with h | h
    · rw [if_neg (not_lt.mpr h), min_eq_left h]
    · rw [if_pos h, min_eq_right h.le]
  exact ⟨this, this⟩

/-- Closed witness for C8: a requested wait of 300 s is reduced to 120 s on
both handlers. -/
theorem oast_poll_wait_capped_witness :
    handleOastPollWaitService (300 * 1000000000) = min (300 * 1000000000) oastMaxWaitNs ∧
    handleOastPollWaitMCP (300 * 1000000000) = min (300 * 1000000000) oastMaxWaitNs :=
  oast_poll_wait_capped (300 * 1000000000) (by norm_num)

/-- ASCII lowercase of a character, as the Go `strings.ToLower` acts on the
header-name bytes the pipeline compares. -/
def lowerChar (c : Char) : Char :=
  if 'A' ≤ c ∧ c ≤ 'Z' then Char.ofNat (c.toNat + 32) else c

/-- ASCII lowercase of a character sequence. -/
def lowerChars (s : List Char) : List Char := s.map lowerChar

/-- Decimal rendering of a natural number, used for the recomputed
`Content-Length` value. -/
def natToChars (n : Nat) : List Char := Nat.toDigits 10 n

/-- Modelled from the spec: `updateContentLength`, whose implementation is
not among the staged sources (only its caller `handleReplaySend`
(part_003:512) is). Spec §4.5 step 5: "Recompute `Content-Length` from
final body bytes; any existing header is replaced." Header fields are
modelled as (name, value) character-sequence pairs; names compare
case-insensitively. -/
def updateContentLength (hdrs : List (List Char × List Char)) (n : Nat) :
    List (List Char × List Char) :=
  (hdrs.filter (fun h => lowerChars h.1 != "content-length".data)) ++
    [("Content-Length".data, natToChars n)]

/-- Values of all `Content-Length` fields (case-insensitive name match) in a
header block. -/
def contentLengthValues (hdrs : List (List Char × List Char)) : List (List Char) :=
  (hdrs.filter (fun h => lowerChars h.1 == "content-length".data)).map (fun h => h.2)

/-- Body-edit arguments of `replay_send`: the literal `body` override (Go
string, embedded as its byte sequence — the Go guard `body != ""` is the
same as the byte slice being non-empty) and the `set_json` / `remove_json`
edit lists. -/
structure BodyEditArgs where
  bodyOverride : List Nat
  setJSON : List String
  removeJSON : List String

/-- Embedding of the body-edit portion of `handleReplaySend`
(part_003:498-510): the literal override replaces the base body only when
non-empty; then, when any JSON edits were requested, `modifyJSONBody` runs
and its failure aborts the handler. The JSON editor is a parameter of the
embedding because `modifyJSONBody`'s implementation is not among the staged
sources; the claims hold for every editor. -/
def replayFinalBody
    (modifyJSONBody : List Nat → List String → List String → Option (List Nat))
    (baseBody : List Nat) (a : BodyEditArgs) : Option (List Nat) :=
  let b1 := if a.bodyOverride.isEmpty then baseBody else a.bodyOverride
  if a.setJSON.isEmpty && a.removeJSON.isEmpty then some b1
  else modifyJSONBody b1 a.setJSON a.removeJSON

/-- Embedding of `handleReplaySend` after the body edits (part_003:512-513):
`headers = updateContentLength(headers, len(reqBody))` followed by
`rawRequest = append(headers, reqBody...)`; the headers/body pair of the
outgoing raw request, or `none` when the JSON edit failed. -/
def replayOutgoing
    (modifyJSONBody : List Nat → List String → List String → Option (List Nat))
    (hdrs : List (List Char × List Char)) (baseBody : List Nat) (a : BodyEditArgs) :
    Option (List (List Char × List Char) × List Nat) :=
  match replayFinalBody modifyJSONBody baseBody a with
  | none => none
  | some b => some (updateContentLength hdrs b.length, b)

/-- C1: whatever body edits were applied, the outgoing request carries
exactly one `Content-Length` header and its value is the decimal length of
the final body; any pre-existing `Content-Length` header is gone. -/
theorem replay_send_content_length_reconciled
    (modifyJSONBody : List Nat → List String → List String → Option (List Nat))
    (hdrs : List (List Char × List Char)) (baseBody : List Nat) (a : BodyEditArgs)
    (outHdrs : List (List Char × List Char)) (outBody : List Nat)
    (h : replayOutgoing modifyJSONBody hdrs baseBody a = some (outHdrs, outBody)) :
    contentLengthValues outHdrs = [natToChars outBody.length] := by
  unfold replayOutgoing at h
  cases hb : replayFinalBody modifyJSONBody baseBody a with
  | none =>
    rw [hb] at h
    exact absurd h (by simp)
  | some b =>
    rw [hb] at h
    simp only [Option.some.injEq, Prod.mk.injEq] at h
    obtain ⟨h1, h2⟩ := h
    subst h1
    subst h2
    unfold contentLengthValues updateContentLength
    rw [List.filter_append, List.map_append]
    have hzero :
        (hdrs.filter (fun h => lowerChars h.1 != "content-length".data)).filter
          (fun h => lowerChars h.1 == "content-length".data) = [] := by
      rw [List.filter_filter]
      apply List.filter_eq_nil_iff.mpr
      intro x _
      cases hc : (lowerChars x.1 == "content-length".data) <;> simp [bne, hc]
    rw [hzero]
    have hname : (lowerChars "Content-Length".data == "content-length".data) = true := by
      decide
    simp [hname]

/-- Closed witness for C1: a base request already carrying
`Content-Length: 13` whose body is replaced by the single byte `120`; the
outgoing header block holds exactly `Content-Length: 1`. -/
theorem replay_send_content_length_reconciled_witness :
    contentLengthValues [("Content-Length".data, natToChars 1)] = [natToChars 1] :=
  replay_send_content_length_reconciled (fun b _ _ => some b)
    [("Content-Length".data, "13".data)] [120] ⟨[120], [], []⟩
    [("Content-Length".data, natToChars 1)] [120] (by decide)

/-- C9: at the MCP gateway the literal body override applies only when
non-empty: with no JSON edits, an absent or empty `body` argument keeps the
base flow's body, a non-empty one replaces it, and in particular a caller
cannot turn a non-empty base body into an empty one through this
parameter. -/
theorem replay_send_body_override_only_when_nonempty
    (modifyJSONBody : List Nat → List String → List String → Option (List Nat))
    (baseBody : List Nat) (a : BodyEditArgs)
    (hset : a.setJSON = []) (hrem : a.removeJSON = []) :
    (a.bodyOverride = [] →
      replayFinalBody modifyJSONBody baseBody a = some baseBody) ∧
    (a.bodyOverride ≠ [] →
      replayFinalBody modifyJSONBody baseBody a = some a.bodyOverride) ∧
    (baseBody ≠ [] →
      ∀ out, replayFinalBody modifyJSONBody baseBody a = some out → out ≠ []) := by
  unfold replayFinalBody
  simp only [hset, hrem, List.isEmpty_nil, Bool.and_self, if_true]
  refine ⟨?_, ?_, ?_⟩
  · intro hov
    simp [hov]
  · intro hov
    simp [List.isEmpty_iff, hov]
  · intro hbase out hout
    by_cases hov : a.bodyOverride = []
    · simp [hov] at hout
      rw [← hout]
      exact hbase
    · simp [List.isEmpty_iff, hov] at hout
      rw [← hout]
      exact hov

/-- Closed witness for C9: with base body `[104, 105]` and an empty
override, the final body is the base body. -/
theorem replay_send_body_override_only_when_nonempty_witness :
    (([] : List Nat) = [] →
      replayFinalBody (fun b _ _ => some b) [104, 105] ⟨[], [], []⟩ = some [104, 105]) ∧
    (([] : List Nat) ≠ [] →
      replayFinalBody (fun b _ _ => some b) [104, 105] ⟨[], [], []⟩ = some []) ∧
    (([104, 105] : List Nat) ≠ [] →
      ∀ out, replayFinalBody (fun b _ _ => some b) [104, 105] ⟨[], [], []⟩ = some out →
        out ≠ []) :=
  replay_send_body_override_only_when_nonempty (fun b _ _ => some b) [104, 105]
    ⟨[], [], []⟩ rfl rfl

/-- Modelled from the spec: the replay store entry (`store.RequestEntry`),
whose implementation file is not among the staged sources (only
`store/request_test.go` and the callers in part_003 are). Spec §3:
"ReplayEntry ... stores response headers (bytes), response body (bytes),
elapsed duration, and creation timestamp." Time is a natural number, `0`
playing Go's zero `time.Time`; duration is an integer (Go int64
nanoseconds). -/
structure RequestEntry where
  Headers : List Nat
  Body : List Nat
  Duration : Int
  CreatedAt : Nat
deriving DecidableEq

/-- Modelled from the spec: the replay request store (`store.RequestStore`),
an id-keyed map of entries, embedded as an association list with the most
recent `Store` first. -/
abbrev RequestStore := List (String × RequestEntry)

/-- Modelled from the spec and pinned by `TestRequestStoreStoreAndGet`
(store/request_test.go:11-63): `Store` records the entry under the id,
filling `CreatedAt` with the current time only when it is the zero time. -/
def RequestStore.Store (s : RequestStore) (id : String) (e : RequestEntry) (now : Nat) :
    RequestStore :=
  (id, { e with CreatedAt := if e.CreatedAt = 0 then now else e.CreatedAt }) :: s

/-- Modelled from the spec: `Get` returns the entry stored under the id,
or nothing when the id is unknown. -/
def RequestStore.Get (s : RequestStore) (id : String) : Option RequestEntry :=
  (s.find? (fun p => p.1 == id)).map (fun p => p.2)

/-- C10: `Store` fills `CreatedAt` with the current time exactly when the
entry's `CreatedAt` is the zero time and preserves a non-zero one; either
way a subsequent `Get` of the same id returns the entry with identical
headers, body and duration. -/
theorem request_store_store_then_get
    (s : RequestStore) (id : String) (e : RequestEntry) (now : Nat) :
    ∃ stored, RequestStore.Get (RequestStore.Store s id e now) id = some stored ∧
      stored.Headers = e.Headers ∧ stored.Body = e.Body ∧
      stored.Duration = e.Duration ∧
      (e.CreatedAt = 0 → stored.CreatedAt = now) ∧
      (e.CreatedAt ≠ 0 → stored.CreatedAt = e.CreatedAt) := by
  unfold RequestStore.Get RequestStore.Store
  rw [List.find?_cons_of_pos _ (by simp)]
  refine ⟨_, rfl, rfl, rfl, rfl, ?_, ?_⟩
  · intro h0
    simp [h0]
  · intro h0
    simp [h0]

/-- Prefix of a raw message up to (excluding) the first CRLF, together with
everything after that CRLF; `none` when the message holds no CRLF, matching
the pass-through behaviour the tests pin for inputs without one. -/
def splitFirstLine : List Char → Option (List Char × List Char)
  | [] => none
  | c :: rest =>
    if c = '\r' ∧ rest.head? = some '\n' then some ([], rest.tail)
    else
      match splitFirstLine rest with
      | some (l, r) => some (c :: l, r)
      | none => none

/-- Splitting a character sequence on a separator, the char-list analogue of
Go `strings.Split`: always at least one word, empty words kept. -/
def splitOnChar (sep : Char) : List Char → List (List Char)
  | [] => [[]]
  | c :: rest =>
    if c = sep then [] :: splitOnChar sep rest
    else
      match splitOnChar sep rest with
      | w :: ws => (c :: w) :: ws
      | [] => [[c]]

/-- Split at the first occurrence of a separator (Go `strings.SplitN(s, sep, 2)`),
`none` when the separator is absent. -/
def splitFirst (sep : Char) : List Char → Option (List Char × List Char)
  | [] => none
  | c :: rest =>
    if c = sep then some ([], rest)
    else
      match splitFirst sep rest with
      | some (l, r) => some (c :: l, r)
      | none => none

/-- Finding the first CRLF skips any prefix free of carriage returns. -/
theorem splitFirstLine_append (l r : List Char) (h : '\r' ∉ l) :
    splitFirstLine (l ++ '\r' :: '\n' :: r) = some (l, r) := by
  induction l with
  | nil => simp [splitFirstLine]
  | cons c l ih =>
    have hc : c ≠ '\r' := fun e => h (e ▸ List.mem_cons_self c l)
    have h' : '\r' ∉ l := fun m => h (List.mem_cons_of_mem _ m)
    rw [List.cons_append, splitFirstLine, if_neg (fun hh => hc hh.1), ih h']

/-- A separator-free word splits to itself alone. -/
theorem splitOnChar_of_not_mem (sep : Char) (w : List Char) (h : sep ∉ w) :
    splitOnChar sep w = [w] := by
  induction w with
  | nil => rfl
  | cons c w ih =>
    have hc : c ≠ sep := fun e => h (e ▸ List.mem_cons_self c w)
    have h' : sep ∉ w := fun m => h (List.mem_cons_of_mem _ m)
    rw [splitOnChar, if_neg hc, ih h']

/-- Splitting peels off a separator-free word before the first separator. -/
theorem splitOnChar_append (sep : Char) (w rest : List Char) (h : sep ∉ w) :
    splitOnChar sep (w ++ sep :: rest) = w :: splitOnChar sep rest := by
  induction w with
  | nil => simp [splitOnChar]
  | cons c w ih =>
    have hc : c ≠ sep := fun e => h (e ▸ List.mem_cons_self c w)
    have h' : sep ∉ w := fun m => h (List.mem_cons_of_mem _ m)
    rw [List.cons_append, splitOnChar, if_neg hc, ih h']

/-- A start line `method SP target SP version` splits into its three words
when none of them contains a space. -/
theorem splitOnChar_three_words (m t v : List Char)
    (hm : ' ' ∉ m) (ht : ' ' ∉ t) (hv : ' ' ∉ v) :
    splitOnChar ' ' (m ++ ' ' :: (t ++ ' ' :: v)) = [m, t, v] := by
  rw [splitOnChar_append ' ' m _ hm, splitOnChar_append ' ' t _ ht,
    splitOnChar_of_not_mem ' ' v hv]

/-- Modelled from the spec: `transformRequestForValidation`, whose
implementation is not among the staged sources (its behaviour is given by
spec §4.5 step 6 / §6 — "Start-line version `HTTP/2[.0]` on a request is
rewritten to `HTTP/1.1` before transit" — and pinned by
`TestTransformRequestForValidation` (httputil_test.go:220-266), including
the pass-through of inputs without a CRLF). -/
def transformRequestForValidation (raw : List Char) : List Char :=
  match splitFirstLine raw with
  | none => raw
  | some (line, rest) =>
    match splitOnChar ' ' line with
    | [m, target, v] =>
      if v = "HTTP/2".data ∨ v = "HTTP/2.0".data then
        m ++ ' ' :: (target ++ ' ' :: ("HTTP/1.1".data ++ '\r' :: '\n' :: rest))
      else raw
    | _ => raw

/-- Start line assembled from method, target and version followed by the
remaining bytes. -/
def mkRequest (m t v rest : List Char) : List Char :=
  m ++ ' ' :: (t ++ ' ' :: (v ++ '\r' :: '\n' :: rest))

/-- C6: version normalization rewrites an `HTTP/2` or `HTTP/2.0` start-line
version to `HTTP/1.1` keeping method, target (path and query), the
remaining header bytes and the body untouched, and leaves `HTTP/1.1` and
`HTTP/1.0` requests byte-for-byte unchanged. -/
theorem transform_request_version_normalization
    (m t rest : List Char)
    (hm : ' ' ∉ m) (ht : ' ' ∉ t) (hmr : '\r' ∉ m) (htr : '\r' ∉ t) :
    transformRequestForValidation (mkRequest m t "HTTP/2".data rest) =
      mkRequest m t "HTTP/1.1".data rest ∧
    transformRequestForValidation (mkRequest m t "HTTP/2.0".data rest) =
      mkRequest m t "HTTP/1.1".data rest ∧
    transformRequestForValidation (mkRequest m t "HTTP/1.1".data rest) =
      mkRequest m t "HTTP/1.1".data rest ∧
    transformRequestForValidation (mkRequest m t "HTTP/1.0".data rest) =
      mkRequest m t "HTTP/1.0".data rest := by
  have hline : ∀ v : List Char, '\r' ∉ v →
      splitFirstLine (mkRequest m t v rest) = some (m ++ ' ' :: (t ++ ' ' :: v), rest) := by
    intro v hvr
    have : mkRequest m t v rest = (m ++ ' ' :: (t ++ ' ' :: v)) ++ '\r' :: '\n' :: rest := by
      simp [mkRequest]
    rw [this]
    apply splitFirstLine_append
    intro hmem
    rcases List.mem_append.mp hmem with h | h
    · exact hmr h
    · rcases List.mem_cons.mp h with h | h
      · exact absurd h (by decide)
      · rcases List.mem_append.mp h with h | h
        · exact htr h
        · rcases List.mem_cons.mp h with h | h
          · exact absurd h (by decide)
          · exact hvr h
  have hwords : ∀ v : List Char, ' ' ∉ v →
      splitOnChar ' ' (m ++ ' ' :: (t ++ ' ' :: v)) = [m, t, v] :=
    fun v hv => splitOnChar_three_words m t v hm ht hv
  have step : ∀ v : List Char, '\r' ∉ v → ' ' ∉ v →
      transformRequestForValidation (mkRequest m t v rest) =
        if v = "HTTP/2".data ∨ v = "HTTP/2.0".data then mkRequest m t "HTTP/1.1".data rest
        else mkRequest m t v rest := by
    intro v hvr hvs
    simp only [transformRequestForValidation, hline v hvr, hwords v hvs]
    split
    · simp [mkRequest]
    · rfl
  refine ⟨?_, ?_, ?_, ?_⟩
  · rw [step _ (by decide) (by decide), if_pos (Or.inl rfl)]
  · rw [step _ (by decide) (by decide), if_pos (Or.inr rfl)]
  · rw [step _ (by decide) (by decide), if_neg (by decide)]
  · rw [step _ (by decide) (by decide), if_neg (by decide)]

/-- Closed witness for C6: the test vector `POST /api/example HTTP/2` with a
`Host` header is rewritten to `HTTP/1.1`, and the same request at
`HTTP/1.1` and `HTTP/1.0` passes through unchanged. -/
theorem transform_request_version_normalization_witness :
    transformRequestForValidation
        (mkRequest "POST".data "/api/example".data "HTTP/2".data "Host: example.com\r\n\r\n".data) =
      mkRequest "POST".data "/api/example".data "HTTP/1.1".data "Host: example.com\r\n\r\n".data ∧
    transformRequestForValidation
        (mkRequest "POST".data "/api/example".data "HTTP/2.0".data "Host: example.com\r\n\r\n".data) =
      mkRequest "POST".data "/api/example".data "HTTP/1.1".data "Host: example.com\r\n\r\n".data ∧
    transformRequestForValidation
        (mkRequest "POST".data "/api/example".data "HTTP/1.1".data "Host: example.com\r\n\r\n".data) =
      mkRequest "POST".data "/api/example".data "HTTP/1.1".data "Host: example.com\r\n\r\n".data ∧
    transformRequestForValidation
        (mkRequest "POST".data "/api/example".data "HTTP/1.0".data "Host: example.com\r\n\r\n".data) =
      mkRequest "POST".data "/api/example".data "HTTP/1.0".data "Host: example.com\r\n\r\n".data :=
  transform_request_version_normalization "POST".data "/api/example".data
    "Host: example.com\r\n\r\n".data (by decide) (by decide) (by decide) (by decide)

/-- First line of a raw message, up to the first CR or LF (the status-code
reader tolerates bare-LF responses, per the `lf_only_line_ending` test
vector). -/
def takeFirstLine (raw : List Char) : List Char :=
  raw.takeWhile (fun c => c != '\r' && c != '\n')

/-- ASCII decimal digit test. -/
def isDigitChar (c : Char) : Bool := '0' ≤ c && c ≤ '9'

/-- Value of a decimal digit string. -/
def digitsToNat (code : List Char) : Nat :=
  code.foldl (fun a c => a * 10 + (c.toNat - '0'.toNat)) 0

/-- Protocol versions the status-line parser accepts (spec §6). -/
def httpVersionsAccepted : List (List Char) :=
  ["HTTP/1.0".data, "HTTP/1.1".data, "HTTP/2".data, "HTTP/2.0".data]

/-- Modelled from the spec: `readResponseStatusCode`, whose implementation
is not among the staged sources. Spec §6: "Status-line parsing accepts
`HTTP/1.0`, `HTTP/1.1`, `HTTP/2`, `HTTP/2.0`; status code must be a
three-digit integer in `[100, 599]`; outside this range parse fails to
zero." Behaviour on malformed input is pinned by
`TestReadResponseStatusCode` (httputil_test.go:118-218). -/
def readResponseStatusCode (raw : List Char) : Nat :=
  match splitOnChar ' ' (takeFirstLine raw) with
  | proto :: code :: _ =>
    if httpVersionsAccepted.contains proto && code.length == 3 && code.all isDigitChar then
      if 100 ≤ digitsToNat code && digitsToNat code ≤ 599 then digitsToNat code else 0
    else 0
  | _ => 0

/-- C7: the status-code reader never returns a value outside `{0} ∪ [100, 599]`;
it accepts all four protocol versions on well-formed status lines, and
returns `0` on out-of-range codes (`099`, `99`, `600`), on malformed lines
(a request line, a missing space, letters for the code, a truncated code)
and on empty input. -/
theorem read_response_status_code_range_and_vectors :
    (∀ raw, readResponseStatusCode raw = 0 ∨
      (100 ≤ readResponseStatusCode raw ∧ readResponseStatusCode raw ≤ 599)) ∧
    readResponseStatusCode "HTTP/1.1 200 OK\r\nContent-Type: text/html\r\n\r\n<html>".data = 200 ∧
    readResponseStatusCode "HTTP/1.0 404 Not Found\r\n\r\n".data = 404 ∧
    readResponseStatusCode "HTTP/2 200\r\nContent-Type: application/json\r\n\r\n".data = 200 ∧
    readResponseStatusCode "HTTP/2.0 500 Internal Server Error\r\n\r\n".data = 500 ∧
    readResponseStatusCode "HTTP/1.1 099 Low\r\n".data = 0 ∧
    readResponseStatusCode "HTTP/1.1 99 Too Low\r\n".data = 0 ∧
    readResponseStatusCode "HTTP/1.1 600 Too High\r\n".data = 0 ∧
    readResponseStatusCode "GET / HTTP/1.1\r\n".data = 0 ∧
    readResponseStatusCode "HTTP/1.1200OK\r\n".data = 0 ∧
    readResponseStatusCode "HTTP/1.1 ABC OK\r\n".data = 0 ∧
    readResponseStatusCode "HTTP/1.1 20".data = 0 ∧
    readResponseStatusCode "".data = 0 := by
  refine ⟨?_, by decide, by decide, by decide, by decide, by decide, by decide,
    by decide, by decide, by decide, by decide, by decide, by decide⟩
  intro raw
  unfold readResponseStatusCode
  split
  · split
    · split
      · rename_i hrange
        right
        simpa using hrange
      · left
        rfl
    · left
      rfl
  · left
    rfl

/-- A `name=value` token split at the first `=` (Go `strings.SplitN(s, "=", 2)`);
a token without `=` becomes a name with empty value. -/
def parseQueryParam (s : List Char) : List Char × List Char :=
  match splitFirst '=' s with
  | some (k, v) => (k, v)
  | none => (s, [])

/-- Query string parsed into (name, value) pairs in order of appearance;
the empty query has no pairs. -/
def parseQuery (q : List Char) : List (List Char × List Char) :=
  if q.isEmpty then [] else (splitOnChar '&' q).map parseQueryParam

/-- Joining words with a separator character. -/
def joinSep (sep : Char) : List (List Char) → List Char
  | [] => []
  | [w] => w
  | w :: ws => w ++ sep :: joinSep sep ws

/-- Query pairs re-serialized as `name=value` joined by `&`. -/
def serializeQuery (ps : List (List Char × List Char)) : List Char :=
  joinSep '&' (ps.map (fun p => p.1 ++ '=' :: p.2))

/-- Modelled from the spec: the `remove_query` stage — "apply `remove_query`
(drops named parameters)" (spec §4.5 step 2). -/
def removeQueryParams (ps : List (List Char × List Char)) (names : List (List Char)) :
    List (List Char × List Char) :=
  ps.filter (fun p => !(names.contains p.1))

/-- Modelled from the spec: one `set_query` upsert — an existing name keeps
its first-seen position with the new value, an absent one is appended
("upserts named parameters", "first-seen for unchanged keys, insertion for
set_query", spec §4.5 step 2). -/
def upsertQueryParam (ps : List (List Char × List Char)) (k v : List Char) :
    List (List Char × List Char) :=
  if ps.any (fun p => p.1 == k) then
    ps.map (fun p => if p.1 == k then (k, v) else p)
  else ps ++ [(k, v)]

/-- All `set_query` pairs applied left to right. -/
def upsertAll (ps sets : List (List Char × List Char)) : List (List Char × List Char) :=
  sets.foldl (fun acc kv => upsertQueryParam acc kv.1 kv.2) ps

/-- The `set_query` argument list, each token parsed as `name=value`, then
upserted in order. -/
def applySetQuery (ps : List (List Char × List Char)) (sets : List (List Char)) :
    List (List Char × List Char) :=
  upsertAll ps (sets.map parseQueryParam)

/-- Path/query edit options of `replay_send` (the Go `PathQueryOpts` struct,
fields as char sequences). -/
structure PathQueryOpts where
  Path : List Char
  Query : List Char
  SetQuery : List (List Char)
  RemoveQuery : List (List Char)

/-- Whether any request-line edit was requested (the Go
`PathQueryOpts.HasModifications`, pinned by
`TestPathQueryOptsHasModifications`). -/
def PathQueryOpts.HasModifications (o : PathQueryOpts) : Bool :=
  !o.Path.isEmpty || !o.Query.isEmpty || !o.SetQuery.isEmpty || !o.RemoveQuery.isEmpty

/-- Request target split at the first `?` into path and query. -/
def splitTargetPathQuery (t : List Char) : List Char × List Char :=
  match splitFirst '?' t with
  | some (p, q) => (p, q)
  | none => (t, [])

/-- Modelled from the spec: `modifyRequestLine`, whose implementation is not
among the staged sources. Spec §4.5 step 2: "Apply edits in this order:
replace `path` if given; replace entire `query` string if given; apply
`remove_query` ...; apply `set_query` .... The final query is re-serialized
in a canonical ordering (first-seen for unchanged keys, insertion for
set_query)." Pass-through on `nil`/empty options and preservation of body
and version are pinned by `TestModifyRequestLine`
(httputil_test.go:340-427). -/
def modifyRequestLine (raw : List Char) (opts : Option PathQueryOpts) : List Char :=
  match opts with
  | none => raw
  | some o =>
    if !o.HasModifications then raw
    else
      match splitFirstLine raw with
      | none => raw
      | some (line, rest) =>
        match splitOnChar ' ' line with
        | [m, target, v] =>
          let pq := splitTargetPathQuery target
          let path1 := if o.Path.isEmpty then pq.1 else o.Path
          let query1 := if o.Query.isEmpty then pq.2 else o.Query
          let ps := applySetQuery (removeQueryParams (parseQuery query1) o.RemoveQuery)
            o.SetQuery
          let q := serializeQuery ps
          let target1 := if q.isEmpty then path1 else path1 ++ '?' :: q
          m ++ ' ' :: (target1 ++ ' ' :: (v ++ '\r' :: '\n' :: rest))
        | _ => raw

/-- Names of query pairs, in order. -/
def queryKeys (ps : List (List Char × List Char)) : List (List Char) :=
  ps.map (fun p => p.1)

/-- Names that a `set_query` sequence introduces beyond those already
present, in insertion order. -/
def newQueryKeys (ks : List (List Char)) : List (List Char × List Char) → List (List Char)
  | [] => []
  | kv :: rest =>
    if kv.1 ∈ ks then newQueryKeys ks rest
    else kv.1 :: newQueryKeys (kv.1 :: ks) rest

/-- One upsert either keeps the key list unchanged (existing name) or
appends the new name. -/
theorem queryKeys_upsert (ps : List (List Char × List Char)) (k v : List Char) :
    queryKeys (upsertQueryParam ps k v) =
      if k ∈ queryKeys ps then queryKeys ps else queryKeys ps ++ [k] := by
  have hmem : (ps.any (fun p => p.1 == k)) = true ↔ k ∈ queryKeys ps := by
    rw [List.any_eq_true]
    constructor
    · rintro ⟨p, hp, he⟩
      exact List.mem_map.mpr ⟨p, hp, by simpa using he⟩
    · intro hk
      obtain ⟨p, hp, he⟩ := List.mem_map.mp hk
      exact ⟨p, hp, by simpa using he⟩
  unfold upsertQueryParam
  by_cases h : (ps.any (fun p => p.1 == k)) = true
  · rw [if_pos h, if_pos (hmem.mp h)]
    unfold queryKeys
    rw [List.map_map]
    apply List.map_congr_left
    intro p _
    by_cases hpk : p.1 = k
    · simp [Function.comp_apply, hpk]
    · simp [Function.comp_apply, hpk]
  · rw [if_neg h, if_neg (fun hk => h (hmem.mpr hk))]
    unfold queryKeys
    rw [List.map_append]
    rfl

/-- Unfolding of `newQueryKeys` on a non-empty `set_query` sequence. -/
theorem newQueryKeys_cons (ks : List (List Char)) (kv : List Char × List Char)
    (rest : List (List Char × List Char)) :
    newQueryKeys ks (kv :: rest) =
      if kv.1 ∈ ks then newQueryKeys ks rest
      else kv.1 :: newQueryKeys (kv.1 :: ks) rest := rfl

/-- `newQueryKeys` only looks at membership in the already-present names. -/
theorem newQueryKeys_congr (ks1 ks2 : List (List Char))
    (sets : List (List Char × List Char)) (h : ∀ x, x ∈ ks1 ↔ x ∈ ks2) :
    newQueryKeys ks1 sets = newQueryKeys ks2 sets := by
  induction sets generalizing ks1 ks2 with
  | nil => rfl
  | cons kv rest ih =>
    unfold newQueryKeys
    by_cases hk : kv.1 ∈ ks1
    · rw [if_pos hk, if_pos ((h kv.1).mp hk)]
      exact ih ks1 ks2 h
    · rw [if_neg hk, if_neg (fun hk2 => hk ((h kv.1).mpr hk2))]
      refine congrArg _ (ih _ _ ?_)
      intro x
      simp [List.mem_cons, h x]

/-- C3: the re-serialized query keeps unchanged names in first-seen order
and appends names newly introduced by `set_query` in insertion order after
them (stated as the key-list law of the remove-then-upsert pipeline), and
the claim's example evaluates accordingly: base query `a=1&b=2&c=3` with
`remove_query=[b]`, `set_query=[a=changed, d=4]` (and a path replacement)
yields `a=changed&c=3&d=4`; moreover `remove_query` runs before
`set_query`, so removing `b` while setting `b=9` re-adds `b` at the end. -/
theorem modify_request_line_query_canonical_order :
    (∀ ps sets, queryKeys (upsertAll ps sets) =
      queryKeys ps ++ newQueryKeys (queryKeys ps) sets) ∧
    modifyRequestLine "GET /old/path?a=1&b=2&c=3 HTTP/1.1\r\nHost: example.com\r\n\r\n".data
        (some ⟨"/new/path".data, [], ["a=changed".data, "d=4".data], ["b".data]⟩) =
      "GET /new/path?a=changed&c=3&d=4 HTTP/1.1\r\nHost: example.com\r\n\r\n".data ∧
    modifyRequestLine "GET /p?a=1&b=2 HTTP/1.1\r\nHost: example.com\r\n\r\n".data
        (some ⟨[], [], ["b=9".data], ["b".data]⟩) =
      "GET /p?a=1&b=9 HTTP/1.1\r\nHost: example.com\r\n\r\n".data := by
  refine ⟨?_, by decide, by decide⟩
  intro ps sets
  induction sets generalizing ps with
  | nil => simp [upsertAll, newQueryKeys]
  | cons kv rest ih =>
    have hstep : upsertAll ps (kv :: rest) = upsertAll (upsertQueryParam ps kv.1 kv.2) rest := by
      simp [upsertAll]
    rw [hstep, ih, queryKeys_upsert, newQueryKeys_cons]
    by_cases hk : kv.1 ∈ queryKeys ps
    · simp only [if_pos hk]
    · simp only [if_neg hk]
      rw [newQueryKeys_congr (queryKeys ps ++ [kv.1]) (kv.1 :: queryKeys ps) rest
        (by intro x; simp [List.mem_append, List.mem_cons, or_comm])]
      simp [List.append_assoc]

/-- The standard base64 alphabet (RFC 4648), as used by Go
`base64.StdEncoding` in `handleReplayGet` (part_003:601). -/
def b64Alphabet : List Char :=
  "ABCDEFGHIJKLMNOPQRSTUVWXYZabcdefghijklmnopqrstuvwxyz0123456789+/".data

/-- Alphabet character of a sextet value. -/
def b64Char (i : Nat) : Char := b64Alphabet.getD i '='

/-- Sextet value of an alphabet character. -/
def b64Index (c : Char) : Option Nat := b64Alphabet.findIdx? (fun x => x == c)

/-- Go `base64.StdEncoding.EncodeToString` over a byte sequence: groups of
three bytes become four alphabet characters, a final group of one or two
bytes is padded with `=`. -/
def b64Encode : List Nat → List Char
  | [] => []
  | [a] => [b64Char (a / 4), b64Char (a % 4 * 16), '=', '=']
  | [a, b] => [b64Char (a / 4), b64Char (a % 4 * 16 + b / 16), b64Char (b % 16 * 4), '=']
  | a :: b :: c :: rest =>
    b64Char (a / 4) :: b64Char (a % 4 * 16 + b / 16) :: b64Char (b % 16 * 4 + c / 64) ::
      b64Char (c % 64) :: b64Encode rest

/-- Standard base64 decoding, the wire-side inverse a client applies to the
`resp_body` field: four characters at a time, honouring `=` padding on the
final group. -/
def b64Decode : List Char → Option (List Nat)
  | [] => some []
  | c1 :: c2 :: c3 :: c4 :: rest =>
    match b64Index c1, b64Index c2 with
    | some i1, some i2 =>
      if c3 = '=' ∧ c4 = '=' then
        if rest.isEmpty then some [i1 * 4 + i2 / 16] else none
      else
        match b64Index c3 with
        | some i3 =>
          if c4 = '=' then
            if rest.isEmpty then some [i1 * 4 + i2 / 16, i2 % 16 * 16 + i3 / 4] else none
          else
            match b64Index c4, b64Decode rest with
            | some i4, some bs =>
              some ((i1 * 4 + i2 / 16) :: (i2 % 16 * 16 + i3 / 4) :: (i3 % 4 * 64 + i4) :: bs)
            | _, _ => none
        | none => none
    | _, _ => none
  | _ => none

/-- Looking an alphabet character back up returns its sextet value. -/
theorem b64Index_b64Char {i : Nat} (h : i < 64) : b64Index (b64Char i) = some i := by
  have hall : ∀ j ∈ List.range 64, b64Index (b64Char j) = some j := by decide
  exact hall i (List.mem_range.mpr h)

/-- Alphabet characters are never the padding character. -/
theorem b64Char_ne_pad {i : Nat} (h : i < 64) : b64Char i ≠ '=' := by
  have hall : ∀ j ∈ List.range 64, b64Char j ≠ '=' := by decide
  exact hall i (List.mem_range.mpr h)

/-- Base64 decoding inverts encoding on byte sequences. -/
theorem b64_decode_encode (bs : List Nat) (h : ∀ x ∈ bs, x < 256) :
    b64Decode (b64Encode bs) = some bs := by
  induction bs using b64Encode.induct with
  | case1 => rfl
  | case2 a =>
    have ha : a < 256 := h a (by simp)
    have h1 := b64Index_b64Char (i := a / 4) (by omega)
    have h2 := b64Index_b64Char (i := a % 4 * 16) (by omega)
    simp only [b64Encode, b64Decode, h1, h2]
    simp only [and_self, if_true, List.isEmpty_nil, Option.some.injEq, List.cons.injEq,
      and_true]
    omega
  | case3 a b =>
    have ha : a < 256 := h a (by simp)
    have hb : b < 256 := h b (by simp)
    have h1 := b64Index_b64Char (i := a / 4) (by omega)
    have h2 := b64Index_b64Char (i := a % 4 * 16 + b / 16) (by omega)
    have h3 := b64Index_b64Char (i := b % 16 * 4) (by omega)
    have hc3 : b64Char (b % 16 * 4) ≠ '=' := b64Char_ne_pad (by omega)
    simp only [b64Encode, b64Decode, h1, h2, h3, hc3, false_and, if_false,
      List.isEmpty_nil, if_true, Option.some.injEq, List.cons.injEq, and_true]
    constructor <;> omega
  | case4 a b c rest ih =>
    have ha : a < 256 := h a (by simp)
    have hb : b < 256 := h b (by simp)
    have hc : c < 256 := h c (by simp)
    have hrest : ∀ x ∈ rest, x < 256 := fun x hx => h x (by simp [hx])
    have h1 := b64Index_b64Char (i := a / 4) (by omega)
    have h2 := b64Index_b64Char (i := a % 4 * 16 + b / 16) (by omega)
    have h3 := b64Index_b64Char (i := b % 16 * 4 + c / 64) (by omega)
    have h4 := b64Index_b64Char (i := c % 64) (by omega)
    have hc3 : b64Char (b % 16 * 4 + c / 64) ≠ '=' := b64Char_ne_pad (by omega)
    have hc4 : b64Char (c % 64) ≠ '=' := b64Char_ne_pad (by omega)
    simp only [b64Encode, b64Decode, h1, h2, h3, h4, hc3, hc4, false_and, if_false,
      if_neg hc4, ih hrest, Option.some.injEq, List.cons.injEq]
    refine ⟨by omega, by omega, by omega, trivial⟩

/-- Outcome of the proxy adapter's send operation as `handleReplaySend`
consumes it (part_003:557-560): response header bytes, response body bytes
and elapsed duration. -/
structure SendResult where
  Headers : List Nat
  Body : List Nat
  Duration : Int

/-- Embedding of the storing step of `handleReplaySend` (part_003:562-566):
the adapter result's headers, body and duration are stored under the fresh
replay id, with `CreatedAt` left at the zero time so `Store` stamps it. -/
def handleReplaySendStore (s : RequestStore) (replayID : String) (r : SendResult)
    (now : Nat) : RequestStore :=
  RequestStore.Store s replayID ⟨r.Headers, r.Body, r.Duration, 0⟩ now

/-- Fields of the `replay.get` reply the round-trip claim speaks about. -/
structure ReplayGetReply where
  RespHeaders : List Nat
  RespBody : List Char
  Duration : Int
  RespSize : Nat

/-- Embedding of `handleReplayGet` (part_003:581-604): look the id up in the
request store and return the stored headers, the base64-encoded stored body,
the stored duration and the body size; `none` models the "replay not found"
error result. -/
def handleReplayGet (s : RequestStore) (replayID : String) : Option ReplayGetReply :=
  (RequestStore.Get s replayID).map fun r =>
    ⟨r.Headers, b64Encode r.Body, r.Duration, r.Body.length⟩

/-- C4: an immediate `replay.get` with the id a `replay.send` stored under
succeeds and returns exactly the stored header bytes, a base64 body that
decodes to exactly the adapter-delivered body bytes, and the same elapsed
duration. -/
theorem replay_send_then_get_roundtrip
    (s : RequestStore) (replayID : String) (r : SendResult) (now : Nat)
    (h : ∀ x ∈ r.Body, x < 256) :
    ∃ reply,
      handleReplayGet (handleReplaySendStore s replayID r now) replayID = some reply ∧
      reply.RespHeaders = r.Headers ∧
      b64Decode reply.RespBody = some r.Body ∧
      reply.Duration = r.Duration := by
  unfold handleReplayGet handleReplaySendStore RequestStore.Get RequestStore.Store
  rw [List.find?_cons_of_pos _ (by simp)]
  exact ⟨_, rfl, rfl, b64_decode_encode r.Body h, rfl⟩

/-- Closed witness for C4: storing a two-byte body `hi` under id `r1` and
reading it back. -/
theorem replay_send_then_get_roundtrip_witness :
    ∃ reply,
      handleReplayGet (handleReplaySendStore [] "r1" ⟨[104], [104, 105], 5⟩ 7) "r1" =
        some reply ∧
      reply.RespHeaders = [104] ∧
      b64Decode reply.RespBody = some [104, 105] ∧
      reply.Duration = 5 :=
  replay_send_then_get_roundtrip [] "r1" ⟨[104], [104, 105], 5⟩ 7 (by decide)

end SecTool
